import Mathlib

/-!
Shallow embedding of the referral application's engine
(source: `src/flask_referral_app.py`).

The database tables are modelled as Lean lists held in insertion order
(`SERIAL` ids are strictly increasing along the list).  SQL `NULL`able
columns become `Option` fields, Python string truthiness becomes
`optTruthy`, and the `signup` request handler (the branch at lines
587-640 of the source, the complete one) becomes the function `signup`
below.  Timestamps are abstracted as `Nat`.
-/

namespace ReferralApp

/-- Python truthiness of an optional string: `None` and `""` are falsy. -/
def optTruthy : Option String → Bool
  | none => false
  | some s => !s.data.isEmpty

/-- The whitespace characters Python's `strip()`/`split()` treat as blanks. -/
def isSpaceChar (c : Char) : Bool :=
  c = ' ' || c = '\t' || c = '\n' || c = '\r' || c = '\x0b' || c = '\x0c'

/-- ASCII lowering, as `str.lower()` acts on the ASCII range. -/
def lowerChar (c : Char) : Char :=
  if 'A' ≤ c ∧ c ≤ 'Z' then Char.ofNat (c.toNat + 32) else c

/-- `strip()`: drop leading and trailing whitespace. -/
def stripChars (l : List Char) : List Char :=
  ((l.dropWhile isSpaceChar).reverse.dropWhile isSpaceChar).reverse

/-- `split()`: cut on runs of whitespace, discarding empty pieces; `acc`
holds the current word reversed. -/
def splitWs : List Char → List Char → List (List Char)
  | [], acc => if acc.isEmpty then [] else [acc.reverse]
  | c :: cs, acc =>
    if isSpaceChar c then
      if acc.isEmpty then splitWs cs [] else acc.reverse :: splitWs cs []
    else splitWs cs (c :: acc)

/-- `" ".join(words)`. -/
def joinSpace : List (List Char) → List Char
  | [] => []
  | [w] => w
  | w :: ws => w ++ ' ' :: joinSpace ws

/-- `normalize` on a plain string: `" ".join(s.strip().lower().split())` —
trim, lowercase, split on whitespace runs, re-join with single spaces. -/
def normStr (s : String) : String :=
  String.mk (joinSpace (splitWs ((stripChars s.data).map lowerChar) []))

/-- `normalize(s)` from the source: `None` passes through. -/
def normalize : Option String → Option String
  | none => none
  | some s => some (normStr s)

/-- A row of `ref_users`. -/
structure User where
  id : Nat
  username : String
  code : String
  first_name : Option String
  last_name : Option String
  phone : Option String
  telegram_id : Option String
  referred_by_user_id : Option Nat
  created_at : Nat
deriving DecidableEq, Repr

/-- A row of `referrals`. -/
structure Edge where
  referrer_user_id : Nat
  referred_user_id : Nat
  created_at : Nat
deriving DecidableEq, Repr

/-- A row of `reserved_accounts` (`id` is the SERIAL insertion order). -/
structure ReservedAccount where
  id : Nat
  username : String
  currency : Option String
  is_assigned : Bool
  assigned_user_id : Option Nat
deriving DecidableEq, Repr

/-- A row of `blacklist`; `active` keeps the SQL INTEGER encoding
(the queries test `active=1`). -/
structure BlacklistEntry where
  kind : String
  value : String
  reason : Option String
  active : Nat
deriving DecidableEq, Repr

/-- The slice of database state touched by signup and referral recording. -/
structure DB where
  users : List User
  referrals : List Edge
  next_user_id : Nat
deriving DecidableEq, Repr

/-- `record_referral(referrer_id, referred_id)`: INSERT with
`ON CONFLICT DO NOTHING` on the UNIQUE `(referrer_user_id, referred_user_id)`
pair; a foreign-key failure raises, is caught by the bare `except`, and the
transaction is rolled back, so the ledger is returned unchanged. -/
def record_referral (users : List User) (ledger : List Edge)
    (referrer_id referred_id : Nat) (now : Nat) : List Edge :=
  if ledger.any (fun e => e.referrer_user_id == referrer_id && e.referred_user_id == referred_id) then
    ledger
  else if users.any (fun u => u.id == referrer_id) && users.any (fun u => u.id == referred_id) then
    ledger ++ [⟨referrer_id, referred_id, now⟩]
  else
    ledger

/-- `SELECT reason FROM blacklist WHERE kind=%s AND value=%s AND active=1 LIMIT 1`. -/
def lookupBL (bl : List BlacklistEntry) (kind value : String) : Option BlacklistEntry :=
  bl.find? (fun e => e.kind == kind && e.value == value && e.active == 1)

/-- `row["reason"] or f"Blocked by blacklist: {kind}"`: a `NULL` or empty
reason falls back to the generic message. -/
def reasonOr (e : BlacklistEntry) (kind : String) : String :=
  match e.reason with
  | some r => if r.data.isEmpty then "Blocked by blacklist: " ++ kind else r
  | none => "Blocked by blacklist: " ++ kind

/-- The `for kind, value in checks` loop of `check_blacklist`: skip falsy
values, return the first match's reason. -/
def runChecks (bl : List BlacklistEntry) : List (String × Option String) → Option String
  | [] => none
  | (kind, v) :: rest =>
    if optTruthy v then
      match lookupBL bl kind (v.getD "") with
      | some e => some (reasonOr e kind)
      | none => runChecks bl rest
    else runChecks bl rest

/-- `check_blacklist(...)` from the source: builds the normalized check list
(phone, telegram id, referral code, referral username, first+last name) and
scans it in order. -/
def check_blacklist (bl : List BlacklistEntry)
    (first_name last_name phone telegram_id ref_code ref_username : Option String) :
    Option String :=
  let name_val : Option String :=
    if optTruthy first_name || optTruthy last_name then
      some (normStr ((first_name.getD "") ++ " " ++ (last_name.getD "")))
    else none
  runChecks bl
    [("phone", normalize phone),
     ("telegram_id", normalize telegram_id),
     ("referral_code", normalize ref_code),
     ("referral_username", normalize ref_username),
     ("name", name_val)]

/-- `allocate_reserved_username(currency)`: when a currency is (truthily)
given, try the lowest-id unassigned row of that currency first; otherwise,
and on miss, take the lowest-id unassigned row of any currency.  The pool
list is held in id (insertion) order, so SQL's `ORDER BY id ASC LIMIT 1`
is `List.find?`. -/
def allocate_reserved_username (pool : List ReservedAccount) (currency : Option String) :
    Option String :=
  let fallback := (pool.find? (fun a => !a.is_assigned)).map (fun a => a.username)
  if optTruthy currency then
    match pool.find? (fun a => !a.is_assigned && a.currency == currency) with
    | some r => some r.username
    | none => fallback
  else fallback

/-- Referrer resolution inlined in `signup` (lines 599-608): code lookup
first (when the code is truthy), then username lookup only if the code
produced nothing. -/
def resolve_referrer (users : List User) (ref_code ref_user : Option String) : Option Nat :=
  let byCode : Option Nat :=
    if optTruthy ref_code then
      (users.find? (fun u => u.code == ref_code.getD "")).map (fun u => u.id)
    else none
  match byCode with
  | some i => some i
  | none =>
    if optTruthy ref_user then
      (users.find? (fun u => u.username == ref_user.getD "")).map (fun u => u.id)
    else none

/-- The POST fields of the signup form. -/
structure SignupInput where
  username : Option String
  first_name : Option String
  last_name : Option String
  phone : Option String
  telegram_id : Option String
  referral_code : Option String
  referral_username : Option String
deriving DecidableEq, Repr

/-- How a signup attempt fails: the INSERT raises on a NULL username, a
taken username, or a taken code; the handler's `except` turns that into a
flashed error with the transaction rolled back. -/
inductive SignupError where
  | MissingUsername
  | DuplicateUsername
  | DuplicateCode
deriving DecidableEq, Repr

/-- The `signup` POST handler (source lines 587-640): resolve the referrer,
insert the user row (`first_name or ""`, `last_name or ""`), and — when a
truthy referrer id differs from the fresh id — record the referral edge.
The generated code and the clock are passed in as parameters.  Note that
this handler performs no blacklist check and no pool allocation, and calls
`gen_code` exactly once. -/
def signup (db : DB) (i : SignupInput) (code : String) (now : Nat) :
    Except SignupError DB :=
  let referred_by_id := resolve_referrer db.users i.referral_code i.referral_username
  match i.username with
  | none => .error .MissingUsername
  | some uname =>
    if db.users.any (fun u => u.username == uname) then .error .DuplicateUsername
    else if db.users.any (fun u => u.code == code) then .error .DuplicateCode
    else
      let nid := db.next_user_id
      let newUser : User :=
        ⟨nid, uname, code, some (i.first_name.getD ""), some (i.last_name.getD ""),
          i.phone, i.telegram_id, referred_by_id, now⟩
      let users1 := db.users ++ [newUser]
      let refs1 :=
        match referred_by_id with
        | some rid =>
          if rid ≠ 0 ∧ rid ≠ nid then record_referral users1 db.referrals rid nid now
          else db.referrals
        | none => db.referrals
      .ok ⟨users1, refs1, nid + 1⟩

/-- The UPDATE shared by `fill_user` and `edit_user`:
`UPDATE ref_users SET first_name=%s, last_name=%s, phone=%s, telegram_id=%s WHERE id=%s`. -/
def update_user_fields (users : List User) (uid : Nat)
    (fn ln ph tg : Option String) : List User :=
  users.map (fun u =>
    if u.id = uid then
      { u with first_name := fn, last_name := ln, phone := ph, telegram_id := tg }
    else u)

/-- `fill_user` POST: look the user up by referral code or username, then
run the profile UPDATE on that row; an unknown identifier changes nothing. -/
def fill_user (db : DB) (identifier : String) (fn ln ph tg : Option String) : DB :=
  match db.users.find? (fun u => u.code == identifier || u.username == identifier) with
  | none => db
  | some u => { db with users := update_user_fields db.users u.id fn ln ph tg }

/-- One blacklist check phrased the way the specification describes it:
normalize the raw attribute, skip it when absent or blank, and otherwise
return the first active matching entry's reason (or the generic text). -/
def screenKind (bl : List BlacklistEntry) (kind : String) (raw : Option String) :
    Option String :=
  match raw with
  | none => none
  | some s =>
    let n := normStr s
    if n.data.isEmpty then none
    else
      match lookupBL bl kind n with
      | some e => some (reasonOr e kind)
      | none => none

/-- The blacklist screener phrased from the specification: check phone,
messaging id, referral code, referral username, then the concatenated
first+last name, in that order, taking the first produced reason. -/
def screen_spec (bl : List BlacklistEntry)
    (first_name last_name phone telegram_id ref_code ref_username : Option String) :
    Option String :=
  let nameRaw : Option String :=
    if optTruthy first_name || optTruthy last_name then
      some ((first_name.getD "") ++ " " ++ (last_name.getD ""))
    else none
  (screenKind bl "phone" phone).orElse fun _ =>
  (screenKind bl "telegram_id" telegram_id).orElse fun _ =>
  (screenKind bl "referral_code" ref_code).orElse fun _ =>
  (screenKind bl "referral_username" ref_username).orElse fun _ =>
  screenKind bl "name" nameRaw

/-- A database transition of the application: a successful signup POST, or
a profile-update POST (`fill_user`; `edit_user` runs the same UPDATE).
Referral-edge recording happens inside `signup`, which is its only caller. -/
inductive Step : DB → DB → Prop where
  | signup_ok (db : DB) (i : SignupInput) (code : String) (now : Nat) (db' : DB) :
      signup db i code now = .ok db' → Step db db'
  | fill (db : DB) (identifier : String) (fn ln ph tg : Option String) :
      Step db (fill_user db identifier fn ln ph tg)

/-- States reachable from the freshly initialised database (`SERIAL` ids
start at 1). -/
inductive Reachable : DB → Prop where
  | init : Reachable ⟨[], [], 1⟩
  | step {db db' : DB} : Reachable db → Step db db' → Reachable db'

/-- The inductive invariant carried through `Reachable`: ids are below the
next SERIAL value, nobody is their own referrer, and no edge is a self-edge. -/
def Inv (db : DB) : Prop :=
  (∀ u ∈ db.users, u.id < db.next_user_id) ∧
  (∀ u ∈ db.users, u.referred_by_user_id ≠ some u.id) ∧
  (∀ e ∈ db.referrals, e.referrer_user_id ≠ e.referred_user_id)

/-- Sample user table used by concrete evaluations. -/
def usersSample : List User :=
  [⟨1, "ua", "C1AAAAAA", none, none, none, none, none, 0⟩,
   ⟨2, "ub", "C2AAAAAA", none, none, none, none, none, 0⟩]

/-- Sample blacklist used by concrete evaluations: one active phone entry
with no stored reason. -/
def blSample : List BlacklistEntry := [⟨"phone", "+10000000000", none, 1⟩]

/-- Sample pool used by concrete evaluations: an assigned USD row, then an
unassigned untagged row, then an unassigned USD row. -/
def poolSample : List ReservedAccount :=
  [⟨1, "acct_a", some "USD", true, some 9⟩,
   ⟨2, "acct_b", none, false, none⟩,
   ⟨3, "acct_c", some "USD", false, none⟩]

/-! ## Helper lemmas -/

/-- `List.find?` on a list strictly sorted by `key` returns a match of
minimal key. -/
theorem find?_some_min {α : Type} {p : α → Bool} (key : α → Nat) :
    ∀ {l : List α}, l.Pairwise (fun a b => key a < key b) → ∀ {a : α}, l.find? p = some a →
      a ∈ l ∧ p a = true ∧ ∀ b ∈ l, p b = true → key a ≤ key b := by
  intro l
  induction l with
  | nil => intro _ a h; simp [List.find?] at h
  | cons x xs ih =>
    intro hp a h
    rw [List.pairwise_cons] at hp
    cases hx : p x with
    | true =>
      rw [List.find?_cons_of_pos _ hx] at h
      cases h
      refine ⟨List.mem_cons_self x xs, hx, ?_⟩
      intro b hb _
      rcases List.mem_cons.mp hb with rfl | hb
      · exact Nat.le_refl _
      · exact Nat.le_of_lt (hp.1 b hb)
    | false =>
      rw [List.find?_cons_of_neg _ (by simp [hx])] at h
      obtain ⟨hmem, hpa, hmin⟩ := ih hp.2 h
      refine ⟨List.mem_cons_of_mem _ hmem, hpa, ?_⟩
      intro b hb hpb
      rcases List.mem_cons.mp hb with rfl | hb
      · rw [hx] at hpb; cases hpb
      · exact hmin b hb hpb

/-- A list containing a witness of `p` makes `List.find?` succeed. -/
theorem find?_some_of_exists {α : Type} {p : α → Bool} {l : List α}
    (h : ∃ a ∈ l, p a = true) : ∃ a, l.find? p = some a := by
  cases hf : l.find? p with
  | some a => exact ⟨a, rfl⟩
  | none =>
    rw [List.find?_eq_none] at hf
    obtain ⟨a, ha, hpa⟩ := h
    exact absurd hpa (by simp [hf a ha])

/-- A duplicate pair makes `record_referral` a no-op (the `ON CONFLICT
DO NOTHING` branch). -/
theorem record_referral_conflict (users : List User) (l : List Edge) (a b t : Nat)
    (h : ∃ e ∈ l, e.referrer_user_id = a ∧ e.referred_user_id = b) :
    record_referral users l a b t = l := by
  unfold record_referral
  rw [if_pos]
  rw [List.any_eq_true]
  obtain ⟨e, he, h1, h2⟩ := h
  exact ⟨e, he, by simp [h1, h2]⟩

/-- A missing foreign key makes `record_referral` a no-op (exception caught,
transaction rolled back). -/
theorem record_referral_fk_invalid (users : List User) (l : List Edge) (a b t : Nat)
    (h : (∀ u ∈ users, u.id ≠ a) ∨ (∀ u ∈ users, u.id ≠ b)) :
    record_referral users l a b t = l := by
  unfold record_referral
  split
  · rfl
  · rw [if_neg]
    rw [Bool.and_eq_true, List.any_eq_true, List.any_eq_true]
    rintro ⟨⟨u, hu, hua⟩, ⟨v, hv, hvb⟩⟩
    rcases h with h | h
    · exact h u hu (by simpa using hua)
    · exact h v hv (by simpa using hvb)

/-- Trichotomy for `record_referral`: conflict no-op, fresh insert, or
foreign-key rollback. -/
theorem record_referral_cases (users : List User) (l : List Edge) (a b t : Nat) :
    ((∃ e ∈ l, e.referrer_user_id = a ∧ e.referred_user_id = b) ∧
      record_referral users l a b t = l) ∨
    ((∀ e ∈ l, ¬(e.referrer_user_id = a ∧ e.referred_user_id = b)) ∧
      (∃ u ∈ users, u.id = a) ∧ (∃ u ∈ users, u.id = b) ∧
      record_referral users l a b t = l ++ [⟨a, b, t⟩]) ∨
    (((∀ u ∈ users, u.id ≠ a) ∨ (∀ u ∈ users, u.id ≠ b)) ∧
      record_referral users l a b t = l) := by
  by_cases hc : ∃ e ∈ l, e.referrer_user_id = a ∧ e.referred_user_id = b
  · exact Or.inl ⟨hc, record_referral_conflict users l a b t hc⟩
  · by_cases ha : ∃ u ∈ users, u.id = a
    · by_cases hb : ∃ u ∈ users, u.id = b
      · refine Or.inr (Or.inl ⟨by push_neg at hc; exact fun e he hh => hc e he hh.1 hh.2, ha, hb, ?_⟩)
        unfold record_referral
        rw [if_neg, if_pos]
        · rw [Bool.and_eq_true, List.any_eq_true, List.any_eq_true]
          obtain ⟨u, hu, hua⟩ := ha
          obtain ⟨v, hv, hvb⟩ := hb
          exact ⟨⟨u, hu, by simp [hua]⟩, ⟨v, hv, by simp [hvb]⟩⟩
        · rw [List.any_eq_true]
          rintro ⟨e, he, hpe⟩
          exact hc ⟨e, he, by simpa using hpe⟩
      · push_neg at hb
        exact Or.inr (Or.inr ⟨Or.inr hb, record_referral_fk_invalid users l a b t (Or.inr hb)⟩)
    · push_neg at ha
      exact Or.inr (Or.inr ⟨Or.inl ha, record_referral_fk_invalid users l a b t (Or.inl ha)⟩)

/-- A non-empty string is truthy. -/
theorem optTruthy_some {c : String} (h : c ≠ "") : optTruthy (some c) = true := by
  cases c with
  | mk data =>
    cases data with
    | nil => exact absurd rfl h
    | cons x xs => rfl

/-! ## Claims -/

/-- Claim C10: calling `allocate_reserved_username` with the empty string
as the preferred currency behaves identically to calling it with no
currency: the truthiness test `if currency:` rejects `""`, so the
currency-scoped SELECT is skipped and only the any-currency fallback runs. -/
theorem c10_allocate_empty_currency (pool : List ReservedAccount) :
    allocate_reserved_username pool (some "") = allocate_reserved_username pool none := rfl

/-- Claim C8: the profile UPDATE shared by `fill_user` and `edit_user`
mutates only first name, last name, phone and telegram id of the addressed
row; its id, username, code, referrer id and creation timestamp are kept,
and every row with a different id is untouched. -/
theorem c8_update_profile_frame (users : List User) (uid : Nat) (fn ln ph tg : Option String) :
    List.Forall₂ (fun u u' : User =>
      u'.id = u.id ∧ u'.username = u.username ∧ u'.code = u.code ∧
      u'.referred_by_user_id = u.referred_by_user_id ∧ u'.created_at = u.created_at ∧
      (u.id ≠ uid → u' = u) ∧
      (u.id = uid → u'.first_name = fn ∧ u'.last_name = ln ∧ u'.phone = ph ∧
        u'.telegram_id = tg))
      users (update_user_fields users uid fn ln ph tg) := by
  induction users with
  | nil => exact List.Forall₂.nil
  | cons x xs ih =>
    simp only [update_user_fields, List.map_cons] at *
    refine List.Forall₂.cons ?_ ih
    by_cases hx : x.id = uid <;> simp [hx]

/-- Claim C9: `record_referral` never propagates a failure: it returns an
unchanged ledger or the ledger with the single new edge appended, and when
either id has no matching user row (a foreign-key violation) the caught
exception rolls the transaction back, leaving the ledger unchanged. -/
theorem c9_record_referral_no_error (users : List User) (l : List Edge) (a b t : Nat) :
    (record_referral users l a b t = l ∨ record_referral users l a b t = l ++ [⟨a, b, t⟩]) ∧
    (((∀ u ∈ users, u.id ≠ a) ∨ (∀ u ∈ users, u.id ≠ b)) →
      record_referral users l a b t = l) := by
  constructor
  · rcases record_referral_cases users l a b t with ⟨_, h⟩ | ⟨_, _, _, h⟩ | ⟨_, h⟩
    · exact Or.inl h
    · exact Or.inr h
    · exact Or.inl h
  · exact record_referral_fk_invalid users l a b t

/-- Witness for C9 at a concrete input with no matching user rows. -/
theorem c9_record_referral_no_error_witness :
    record_referral [] [] 1 2 0 = [] :=
  (c9_record_referral_no_error [] [] 1 2 0).2 (Or.inl (by simp))

/-- Claim C4: recording the same (referrer, referred) pair twice yields
exactly one stored edge: the second call is a silent no-op leaving the
ledger of the first call unchanged, and a fresh valid pair ends up stored
exactly once. -/
theorem c4_record_referral_idempotent (users : List User) (l : List Edge) (a b t1 t2 : Nat) :
    record_referral users (record_referral users l a b t1) a b t2 =
      record_referral users l a b t1 ∧
    (l.countP (fun e => e.referrer_user_id == a && e.referred_user_id == b) = 0 →
      (∃ u ∈ users, u.id = a) → (∃ u ∈ users, u.id = b) →
      (record_referral users (record_referral users l a b t1) a b t2).countP
        (fun e => e.referrer_user_id == a && e.referred_user_id == b) = 1) := by
  rcases record_referral_cases users l a b t1 with ⟨hex, h⟩ | ⟨hnone, ha, hb, h⟩ | ⟨hbad, h⟩
  · rw [h]
    refine ⟨record_referral_conflict users l a b t2 hex, ?_⟩
    intro h0 _ _
    obtain ⟨e, he, h1, h2⟩ := hex
    have := List.countP_eq_zero.mp h0 e he
    simp [h1, h2] at this
  · rw [h]
    have hmem : ∃ e ∈ l ++ [(⟨a, b, t1⟩ : Edge)],
        e.referrer_user_id = a ∧ e.referred_user_id = b :=
      ⟨⟨a, b, t1⟩, by simp, rfl, rfl⟩
    have hrw := record_referral_conflict users (l ++ [(⟨a, b, t1⟩ : Edge)]) a b t2 hmem
    refine ⟨hrw, ?_⟩
    intro h0 _ _
    rw [hrw, List.countP_append, h0]
    simp [List.countP, List.countP.go]
  · rw [h]
    refine ⟨record_referral_fk_invalid users l a b t2 hbad, ?_⟩
    intro _ ha hb
    rcases hbad with hf | hf
    · obtain ⟨u, hu, hua⟩ := ha; exact absurd hua (hf u hu)
    · obtain ⟨v, hv, hvb⟩ := hb; exact absurd hvb (hf v hv)

/-- Claim C3: on a pool held in id order, allocation with a (non-empty)
preferred currency returns the username of the unassigned account of
lowest id among that currency; when no unassigned account of that currency
exists it behaves exactly like the no-currency call, which returns the
unassigned account of lowest id of any currency; and when every account is
assigned it returns no username. -/
theorem c3_allocate_oldest (pool : List ReservedAccount)
    (hs : pool.Pairwise (fun a b => a.id < b.id)) :
    (∀ c : String, c ≠ "" →
      ((∃ a ∈ pool, a.is_assigned = false ∧ a.currency = some c) →
        ∃ a ∈ pool, a.is_assigned = false ∧ a.currency = some c ∧
          allocate_reserved_username pool (some c) = some a.username ∧
          ∀ b ∈ pool, b.is_assigned = false → b.currency = some c → a.id ≤ b.id) ∧
      ((∀ a ∈ pool, a.is_assigned = false → a.currency ≠ some c) →
        allocate_reserved_username pool (some c) = allocate_reserved_username pool none)) ∧
    ((∃ a ∈ pool, a.is_assigned = false) →
      ∃ a ∈ pool, a.is_assigned = false ∧
        allocate_reserved_username pool none = some a.username ∧
        ∀ b ∈ pool, b.is_assigned = false → a.id ≤ b.id) ∧
    ((∀ a ∈ pool, a.is_assigned = true) →
      ∀ cur, allocate_reserved_username pool cur = none) := by
  refine ⟨?_, ?_, ?_⟩
  · intro c hc
    have hct : optTruthy (some c) = true := optTruthy_some hc
    constructor
    · rintro ⟨a0, ha0, hfree0, hcur0⟩
      obtain ⟨r, hr⟩ := find?_some_of_exists (p := fun a => !a.is_assigned && a.currency == some c)
        ⟨a0, ha0, by simp [hfree0, hcur0]⟩
      obtain ⟨hmem, hpr, hmin⟩ := find?_some_min ReservedAccount.id hs hr
      rw [Bool.and_eq_true, Bool.not_eq_true', beq_iff_eq] at hpr
      refine ⟨r, hmem, hpr.1, hpr.2, ?_, ?_⟩
      · simp [allocate_reserved_username, hct, hr]
      · intro b hb hbf hbc
        exact hmin b hb (by simp [hbf, hbc])
    · intro hnone
      have hfn : pool.find? (fun a => !a.is_assigned && a.currency == some c) = none := by
        rw [List.find?_eq_none]
        intro x hx
        simp only [Bool.and_eq_true, Bool.not_eq_true', beq_iff_eq, not_and]
        exact fun hfree => hnone x hx hfree
      simp [allocate_reserved_username, hct, hfn, optTruthy]
  · rintro ⟨a0, ha0, hfree0⟩
    obtain ⟨r, hr⟩ := find?_some_of_exists (p := fun a => !a.is_assigned)
      ⟨a0, ha0, by simp [hfree0]⟩
    obtain ⟨hmem, hpr, hmin⟩ := find?_some_min ReservedAccount.id hs hr
    rw [Bool.not_eq_true'] at hpr
    refine ⟨r, hmem, hpr, ?_, ?_⟩
    · simp [allocate_reserved_username, optTruthy, hr]
    · intro b hb hbf
      exact hmin b hb (by simp [hbf])
  · intro hall cur
    have hf2 : pool.find? (fun a => !a.is_assigned) = none := by
      rw [List.find?_eq_none]
      intro x hx
      simp [hall x hx]
    have hf1 : pool.find? (fun a => !a.is_assigned && a.currency == cur) = none := by
      rw [List.find?_eq_none]
      intro x hx
      simp [hall x hx]
    simp [allocate_reserved_username, hf1, hf2]

/-- Witness for C3 at the sample pool with currency USD: the id-3 USD row
is chosen over the assigned id-1 USD row and the untagged id-2 row. -/
theorem c3_allocate_oldest_witness :
    ∃ a ∈ poolSample, a.is_assigned = false ∧ a.currency = some "USD" ∧
      allocate_reserved_username poolSample (some "USD") = some a.username ∧
      ∀ b ∈ poolSample, b.is_assigned = false → b.currency = some "USD" → a.id ≤ b.id :=
  ((c3_allocate_oldest poolSample (by decide)).1 "USD" (by decide)).1
    ⟨⟨3, "acct_c", some "USD", false, none⟩, by decide, rfl, rfl⟩

/-- Witness for C4 at a concrete fresh pair with valid user rows. -/
theorem c4_record_referral_idempotent_witness :
    record_referral usersSample (record_referral usersSample [] 1 2 3) 1 2 4 =
      record_referral usersSample [] 1 2 3 ∧
    (record_referral usersSample (record_referral usersSample [] 1 2 3) 1 2 4).countP
      (fun e => e.referrer_user_id == 1 && e.referred_user_id == 2) = 1 := by
  have h := c4_record_referral_idempotent usersSample [] 1 2 3 4
  exact ⟨h.1, h.2 (by decide)
    ⟨⟨1, "ua", "C1AAAAAA", none, none, none, none, none, 0⟩, by decide, rfl⟩
    ⟨⟨2, "ub", "C2AAAAAA", none, none, none, none, none, 0⟩, by decide, rfl⟩⟩

/-- Claim C5: a truthy referral code that matches a user makes that user
the referrer regardless of the username argument; the username lookup runs
only when the code is absent or unresolved; and when neither input
resolves, the referrer is absent and the signup still succeeds. -/
theorem c5_referrer_resolution (users : List User) (rc ru : Option String) :
    (∀ u : User, optTruthy rc = true →
      users.find? (fun x => x.code == rc.getD "") = some u →
      ∀ ru' : Option String, resolve_referrer users rc ru' = some u.id) ∧
    ((optTruthy rc = false ∨ users.find? (fun x => x.code == rc.getD "") = none) →
      resolve_referrer users rc ru =
        (if optTruthy ru then
          (users.find? (fun x => x.username == ru.getD "")).map (fun u => u.id)
        else none)) ∧
    (∀ (refs : List Edge) (nid now : Nat) (i : SignupInput) (uname code : String),
      i.username = some uname → i.referral_code = rc → i.referral_username = ru →
      resolve_referrer users rc ru = none →
      (∀ u ∈ users, u.username ≠ uname) → (∀ u ∈ users, u.code ≠ code) →
      signup ⟨users, refs, nid⟩ i code now =
        .ok ⟨users ++ [⟨nid, uname, code, some (i.first_name.getD ""),
          some (i.last_name.getD ""), i.phone, i.telegram_id, none, now⟩], refs, nid + 1⟩) := by
  refine ⟨?_, ?_, ?_⟩
  · intro u hrc hfind ru'
    simp [resolve_referrer, hrc, hfind]
  · intro h
    rcases h with hrc | hfind
    · simp [resolve_referrer, hrc]
    · cases hrc : optTruthy rc with
      | false => simp [resolve_referrer, hrc]
      | true => simp [resolve_referrer, hrc, hfind]
  · intro refs nid now i uname code hu hrc hru hres hfresh hcode
    have h1 : users.any (fun u => u.username == uname) = false := by
      rw [List.any_eq_false]
      intro x hx
      simp [hfresh x hx]
    have h2 : users.any (fun u => u.code == code) = false := by
      rw [List.any_eq_false]
      intro x hx
      simp [hcode x hx]
    rw [← hrc, ← hru] at hres
    simp [signup, hu, h1, h2, hres]

/-- Witness for C5: a matching code (that of user 1) wins although the
supplied username names user 2. -/
theorem c5_referrer_resolution_witness :
    resolve_referrer usersSample (some "C1AAAAAA") (some "ub") = some 1 :=
  (c5_referrer_resolution usersSample (some "C1AAAAAA") (some "ub")).1
    ⟨1, "ua", "C1AAAAAA", none, none, none, none, none, 0⟩ (by decide) (by decide)
    (some "ub")

/-- Counterexample to claim C2 as stated: a code collision is surfaced to
the caller as an error by the very first attempt — nothing retries it. -/
theorem c2_code_collision_surfaced_cex :
    signup ⟨usersSample, [], 3⟩
      ⟨some "alice", none, none, none, none, none, none⟩ "C1AAAAAA" 0 =
      .error .DuplicateCode := rfl

/-- Claim C2 (amended): when the generated code collides with an existing
user's code (and the username itself is fresh), the signup attempt fails
immediately with a duplicate-code error surfaced to the caller; there is no
retry and no `CodeAllocationExhausted` outcome. -/
theorem c2_code_collision_immediate_error (db : DB) (i : SignupInput) (code : String)
    (now : Nat) (uname : String) (hu : i.username = some uname)
    (hfresh : ∀ u ∈ db.users, u.username ≠ uname)
    (hcol : ∃ u ∈ db.users, u.code = code) :
    signup db i code now = .error .DuplicateCode := by
  have h1 : db.users.any (fun u => u.username == uname) = false := by
    rw [List.any_eq_false]
    intro x hx
    simp [hfresh x hx]
  have h2 : db.users.any (fun u => u.code == code) = true := by
    rw [List.any_eq_true]
    obtain ⟨u, hmem, hc⟩ := hcol
    exact ⟨u, hmem, by simp [hc]⟩
  simp [signup, hu, h1, h2]

/-- Witness for the amended C2 at a concrete collision. -/
theorem c2_code_collision_immediate_error_witness :
    signup ⟨usersSample, [], 3⟩
      ⟨some "alice", none, none, none, none, none, none⟩ "C1AAAAAA" 7 =
      .error .DuplicateCode :=
  c2_code_collision_immediate_error ⟨usersSample, [], 3⟩
    ⟨some "alice", none, none, none, none, none, none⟩ "C1AAAAAA" 7 "alice" rfl
    (by decide) ⟨⟨1, "ua", "C1AAAAAA", none, none, none, none, none, 0⟩, by decide, rfl⟩

/-- Claim C1 evidence: the signup handler never consults the blacklist.
With an active blacklist entry matching the normalized phone — on which
`check_blacklist` would report a block — the signup nevertheless succeeds
and inserts the user row. -/
theorem c1_signup_bypasses_blacklist :
    check_blacklist blSample none none (some " +10000000000 ") none none none =
      some "Blocked by blacklist: phone" ∧
    signup ⟨[], [], 1⟩
      ⟨some "alice", none, none, some " +10000000000 ", none, none, none⟩ "AAAA1111" 0 =
      .ok ⟨[⟨1, "alice", "AAAA1111", some "", some "", some " +10000000000 ", none, none, 0⟩],
        [], 2⟩ :=
  ⟨by decide, rfl⟩

/-- One step of the `check_blacklist` loop on a pre-normalized value agrees
with the specification-side per-kind check on the raw value. -/
theorem runChecks_cons_eq (bl : List BlacklistEntry) (kind : String) (raw : Option String)
    (rest : List (String × Option String)) :
    runChecks bl ((kind, normalize raw) :: rest) =
      (screenKind bl kind raw).orElse (fun _ => runChecks bl rest) := by
  cases raw with
  | none => simp [runChecks, normalize, screenKind, optTruthy, Option.orElse]
  | some s =>
    simp only [normalize, runChecks, screenKind, optTruthy, Option.getD]
    by_cases he : (normStr s).data.isEmpty
    · simp [he, Option.orElse]
    · cases hf : lookupBL bl kind (normStr s) with
      | some e => simp [he, hf, Option.orElse]
      | none => simp [he, hf, Option.orElse]

/-- Counterexample to claim C6 as stated: an active entry with no stored
reason yields the message "Blocked by blacklist: phone" with a capital B,
not the lowercase generic string the claim quotes. -/
theorem c6_generic_reason_capitalized_cex :
    check_blacklist blSample none none (some "+10000000000") none none none =
      some "Blocked by blacklist: phone" ∧
    "Blocked by blacklist: phone" ≠ "blocked by blacklist: phone" := by
  constructor
  · decide
  · decide

/-- Claim C6 (amended, the generic fallback reads "Blocked by blacklist:
`<kind>`"): the screener normalizes each free-text attribute (trim,
collapse internal whitespace, lowercase), checks phone, messaging id,
referral code, referral username, then the concatenated first+last name —
in that order, skipping absent or blank values — against active entries of
the matching kind, and returns the first match's reason (or the generic
fallback when the entry stores no reason), and no match otherwise:
`check_blacklist` coincides with the specification-shaped `screen_spec`. -/
theorem c6_check_blacklist_eq_screen_spec (bl : List BlacklistEntry)
    (fn ln ph tg rc ru : Option String) :
    check_blacklist bl fn ln ph tg rc ru = screen_spec bl fn ln ph tg rc ru := by
  have horelse : ∀ x : Option String, (x.orElse fun _ => (none : Option String)) = x := by
    intro x
    cases x <;> rfl
  have hname : (if optTruthy fn || optTruthy ln then
      some (normStr ((fn.getD "") ++ " " ++ (ln.getD ""))) else none) =
      normalize (if optTruthy fn || optTruthy ln then
        some ((fn.getD "") ++ " " ++ (ln.getD "")) else none) := by
    by_cases h : (optTruthy fn || optTruthy ln) = true <;> simp [h, normalize]
  simp only [check_blacklist, screen_spec]
  rw [hname, runChecks_cons_eq, runChecks_cons_eq, runChecks_cons_eq, runChecks_cons_eq,
    runChecks_cons_eq]
  simp only [runChecks, horelse]

/-- A resolved referrer id always belongs to an existing user row. -/
theorem resolve_referrer_mem (users : List User) (rc ru : Option String) (rid : Nat)
    (h : resolve_referrer users rc ru = some rid) : ∃ u ∈ users, u.id = rid := by
  have hif : ∀ (cond : Bool) (f : User → Bool),
      (if cond then (users.find? f).map (fun u => u.id) else none) = some rid →
      ∃ u ∈ users, u.id = rid := by
    intro cond f hc
    cases cond with
    | false => simp at hc
    | true =>
      simp only [if_true] at hc
      cases hf : users.find? f with
      | none => rw [hf] at hc; simp at hc
      | some u =>
        rw [hf] at hc
        simp only [Option.map_some', Option.some.injEq] at hc
        exact ⟨u, List.mem_of_find?_eq_some hf, hc⟩
  simp only [resolve_referrer] at h
  split at h
  next heq => exact hif _ _ (heq.trans h)
  next heq => exact hif _ _ h

/-- The profile UPDATE keeps every row's id and referrer pointer. -/
theorem update_fields_mem {users : List User} {uid : Nat} {fn ln ph tg : Option String}
    {v : User} (h : v ∈ update_user_fields users uid fn ln ph tg) :
    ∃ u ∈ users, v.id = u.id ∧ v.referred_by_user_id = u.referred_by_user_id := by
  unfold update_user_fields at h
  obtain ⟨u, hu, hv⟩ := List.mem_map.mp h
  refine ⟨u, hu, ?_⟩
  by_cases hx : u.id = uid
  · rw [if_pos hx] at hv
    rw [← hv]
    exact ⟨rfl, rfl⟩
  · rw [if_neg hx] at hv
    rw [← hv]
    exact ⟨rfl, rfl⟩

/-- `fill_user` preserves the inductive invariant. -/
theorem fill_inv {db : DB} (hInv : Inv db) (identifier : String)
    (fn ln ph tg : Option String) : Inv (fill_user db identifier fn ln ph tg) := by
  obtain ⟨hid, href, hedge⟩ := hInv
  unfold fill_user
  cases hf : db.users.find? (fun u => u.code == identifier || u.username == identifier) with
  | none => exact ⟨hid, href, hedge⟩
  | some u =>
    refine ⟨?_, ?_, hedge⟩ <;> intro v hv <;>
      obtain ⟨w, hw, h1, h2⟩ := update_fields_mem hv
    · rw [h1]
      exact hid w hw
    · rw [h1, h2]
      exact href w hw

/-- A successful signup preserves the inductive invariant: the fresh id is
the old `next_user_id`, the resolved referrer is an existing (hence
smaller) id, and the recorded edge is guarded by `rid != new id`. -/
theorem signup_ok_inv {db db' : DB} {i : SignupInput} {code : String} {now : Nat}
    (hok : signup db i code now = Except.ok db') (hInv : Inv db) : Inv db' := by
  obtain ⟨hid, href, hedge⟩ := hInv
  cases hu : i.username with
  | none => simp [signup, hu] at hok
  | some uname =>
    by_cases h1 : db.users.any (fun u => u.username == uname) = true
    · simp [signup, hu, h1] at hok
    · by_cases h2 : db.users.any (fun u => u.code == code) = true
      · simp [signup, hu, h1, h2] at hok
      · cases hr : resolve_referrer db.users i.referral_code i.referral_username with
        | none =>
          simp only [signup, hu, h1, h2, hr, Bool.false_eq_true, if_false,
            Except.ok.injEq] at hok
          subst hok
          refine ⟨?_, ?_, hedge⟩ <;> intro v hv <;>
            rcases List.mem_append.mp hv with hv | hv
          · exact Nat.lt_succ_of_lt (hid v hv)
          · rw [List.mem_singleton.mp hv]
            exact Nat.lt_succ_self _
          · exact href v hv
          · rw [List.mem_singleton.mp hv]
            simp
        | some rid =>
          have hlt : rid < db.next_user_id := by
            obtain ⟨u, hu', hu2⟩ := resolve_referrer_mem _ _ _ _ hr
            exact hu2 ▸ hid u hu'
          simp only [signup, hu, h1, h2, hr, Bool.false_eq_true, if_false,
            Except.ok.injEq] at hok
          subst hok
          have husers : ∀ v ∈ db.users ++
              [(⟨db.next_user_id, uname, code, some (i.first_name.getD ""),
                some (i.last_name.getD ""), i.phone, i.telegram_id, some rid, now⟩ : User)],
              v.id < db.next_user_id + 1 ∧ v.referred_by_user_id ≠ some v.id := by
            intro v hv
            rcases List.mem_append.mp hv with hv | hv
            · exact ⟨Nat.lt_succ_of_lt (hid v hv), href v hv⟩
            · rw [List.mem_singleton.mp hv]
              exact ⟨Nat.lt_succ_self _, by simp [Nat.ne_of_lt hlt]⟩
          refine ⟨fun v hv => (husers v hv).1, fun v hv => (husers v hv).2, ?_⟩
          by_cases hg : rid ≠ 0 ∧ rid ≠ db.next_user_id
          · rw [if_pos hg]
            intro e he
            rcases record_referral_cases
                (db.users ++ [⟨db.next_user_id, uname, code, some (i.first_name.getD ""),
                  some (i.last_name.getD ""), i.phone, i.telegram_id, some rid, now⟩])
                db.referrals rid db.next_user_id now with
              ⟨_, hrec⟩ | ⟨_, _, _, hrec⟩ | ⟨_, hrec⟩
            · rw [hrec] at he
              exact hedge e he
            · rw [hrec] at he
              rcases List.mem_append.mp he with he | he
              · exact hedge e he
              · rw [List.mem_singleton.mp he]
                exact hg.2
            · rw [hrec] at he
              exact hedge e he
          · rw [if_neg hg]
            exact hedge

/-- Claim C7: in every state reachable through the application's signup
(and the referral-edge recording it performs) and profile updates, no user
is its own referrer and no stored edge is a self-edge. -/
theorem c7_no_self_referral (db : DB) (h : Reachable db) :
    (∀ u ∈ db.users, u.referred_by_user_id ≠ some u.id) ∧
    (∀ e ∈ db.referrals, e.referrer_user_id ≠ e.referred_user_id) := by
  have hInv : Inv db := by
    induction h with
    | init => exact ⟨by simp, by simp, by simp⟩
    | step hre hstep ih =>
      cases hstep with
      | signup_ok i code now db2 hok => exact signup_ok_inv hok ih
      | fill identifier fn ln ph tg => exact fill_inv ih identifier fn ln ph tg
  exact ⟨hInv.2.1, hInv.2.2⟩

/-- Witness for C7: the state after one concrete signup is reachable, and
the invariant holds there. -/
theorem c7_no_self_referral_witness :
    (∀ u ∈ (⟨[⟨1, "alice", "AAAA1111", some "", some "", none, none, none, 0⟩], [], 2⟩ :
        DB).users, u.referred_by_user_id ≠ some u.id) ∧
    (∀ e ∈ (⟨[⟨1, "alice", "AAAA1111", some "", some "", none, none, none, 0⟩], [], 2⟩ :
        DB).referrals, e.referrer_user_id ≠ e.referred_user_id) :=
  c7_no_self_referral _
    (Reachable.step Reachable.init
      (Step.signup_ok ⟨[], [], 1⟩ ⟨some "alice", none, none, none, none, none, none⟩
        "AAAA1111" 0 _ rfl))

end ReferralApp
